import Mathlib

/-!
Shallow embedding of the walk-watcher repository's watch-store-emit
pipeline, together with theorems settling the specification claims.

The definitions below are translated from:
  * src/walk_watcher/watchermodel.py   (dataclasses File, Directory)
  * src/walk_watcher/watcherstore.py   (WatcherStore: save_files,
    start_run, stop_run, get_directories, get_oldest_files,
    clean_oldest_files)
  * src/walk_watcher/watcheremitter.py (WatcherEmitter: add_line,
    _get_lines, emit)
  * src/walk_watcher/watcher.py        (Watcher._build_file_models,
    Watcher._add_directory_size_lines)

The SQLite `files` table is modelled as a list of rows in rowid order:
SQL UPDATE statements map over the rows in place, INSERT appends at the
end, DELETE filters, exactly matching the observable row order of the
source's queries.
-/

namespace WalkWatcher

/-- Row of the `files` table, columns in schema order
(root, filename, first_seen, last_seen, age_seconds, removed).
`removed` is stored as the SQL integers 0/1; modelled as `Bool`. -/
structure FileRow where
  root : String
  filename : String
  first_seen : Int
  last_seen : Int
  age_seconds : Int
  removed : Bool
deriving DecidableEq, Repr

/-- The dataclass `watchermodel.File`, positional field order
root, filename, last_seen, first_seen, age_seconds, removed, with the
source's defaults for the trailing fields. -/
structure File where
  root : String
  filename : String
  last_seen : Int
  first_seen : Int := 0
  age_seconds : Int := 0
  removed : Int := 0
deriving DecidableEq, Repr

/-- The dataclass `watchermodel.Directory`, positional field order
root, last_seen, file_count. -/
structure Directory where
  root : String
  last_seen : Int
  file_count : Int
deriving DecidableEq, Repr

/-- The single row of the `system` table (the columns `start_run` and
`stop_run` touch: last_run, is_running). -/
structure SystemRow where
  last_run : Int
  is_running : Bool
deriving DecidableEq, Repr

/-! ## WatcherStore.save_files and its three phases -/

/-- `WatcherStore._mark_all_removed`:
`UPDATE files SET removed = 1 WHERE removed = 0`. -/
def mark_all_removed (tbl : List FileRow) : List FileRow :=
  tbl.map fun r => if r.removed = false then { r with removed := true } else r

/-- Effect of one `UPDATE files SET last_seen = ?, removed = 0,
age_seconds = ? - first_seen WHERE root = ? AND filename = ?` statement
of `WatcherStore._update_files` on one row. -/
def updRow (f : File) (r : FileRow) : FileRow :=
  if r.root = f.root ∧ r.filename = f.filename then
    { r with last_seen := f.last_seen, removed := false,
             age_seconds := f.last_seen - r.first_seen }
  else r

/-- `WatcherStore._update_files`: `executemany` runs the UPDATE once per
snapshot file, in snapshot order, each over the whole table. -/
def update_files (files : List File) (tbl : List FileRow) : List FileRow :=
  files.foldl (fun t f => t.map (updRow f)) tbl

/-- The row inserted for a new file by `WatcherStore._insert_files`:
`VALUES (root, filename, last_seen, last_seen, 0, 0)`. -/
def freshRow (f : File) : FileRow :=
  { root := f.root, filename := f.filename, first_seen := f.last_seen,
    last_seen := f.last_seen, age_seconds := 0, removed := false }

/-- Whether a row with the given `(root, filename)` key exists
(the UNIQUE(root, filename) constraint consulted by INSERT OR IGNORE). -/
def hasKey (tbl : List FileRow) (root filename : String) : Bool :=
  tbl.any fun r => decide (r.root = root) && decide (r.filename = filename)

/-- Effect of one `INSERT OR IGNORE INTO files ...` statement of
`WatcherStore._insert_files`. -/
def insertRow (f : File) (tbl : List FileRow) : List FileRow :=
  if hasKey tbl f.root f.filename then tbl else tbl ++ [freshRow f]

/-- `WatcherStore._insert_files`: one INSERT OR IGNORE per snapshot file,
in snapshot order. -/
def insert_files (files : List File) (tbl : List FileRow) : List FileRow :=
  files.foldl (fun t f => insertRow f t) tbl

/-- `WatcherStore.save_files`: mark all removed, then batch update, then
batch insert (all in a single transaction). -/
def save_files (files : List File) (tbl : List FileRow) : List FileRow :=
  insert_files files (update_files files (mark_all_removed tbl))

/-- The `(root, filename)` key of a snapshot file. -/
def fileKey (f : File) : String × String := (f.root, f.filename)

/-! ## Quick sanity checks on concrete data -/

example :
    save_files [{ root := "/a", filename := "f", last_seen := 5 }] [] =
      [⟨"/a", "f", 5, 5, 0, false⟩] := by decide

example :
    save_files []
      (save_files [{ root := "/a", filename := "f", last_seen := 5 }] []) =
      [⟨"/a", "f", 5, 5, 0, true⟩] := by decide

example :
    save_files [{ root := "/a", filename := "f", last_seen := 8 }]
      [⟨"/a", "f", 5, 5, 0, false⟩, ⟨"/a", "g", 5, 5, 0, false⟩] =
      [⟨"/a", "f", 5, 8, 3, false⟩, ⟨"/a", "g", 5, 5, 0, true⟩] := by decide

/-! ## Lemmas about the three phases -/

/-- Marking a row removed is the same as setting the flag outright. -/
theorem mar_eq (r : FileRow) :
    (if r.removed = false then { r with removed := true } else r) =
      { r with removed := true } := by
  by_cases h : r.removed = false
  · simp [h]
  · cases r with
    | mk root filename fs ls age rm =>
      simp only [Bool.not_eq_false] at h
      simp [h]

theorem mark_all_removed_eq (tbl : List FileRow) :
    mark_all_removed tbl = tbl.map fun r => { r with removed := true } := by
  unfold mark_all_removed
  exact List.map_congr_left fun r _ => mar_eq r

theorem updRow_root (f : File) (r : FileRow) : (updRow f r).root = r.root := by
  unfold updRow; split <;> rfl

theorem updRow_filename (f : File) (r : FileRow) :
    (updRow f r).filename = r.filename := by
  unfold updRow; split <;> rfl

theorem updRow_first_seen (f : File) (r : FileRow) :
    (updRow f r).first_seen = r.first_seen := by
  unfold updRow; split <;> rfl

/-- Result of the per-row fold of all UPDATE statements on a single row. -/
def applyUpd (files : List File) (r : FileRow) : FileRow :=
  files.foldl (fun r f => updRow f r) r

theorem applyUpd_nil (r : FileRow) : applyUpd [] r = r := rfl

theorem applyUpd_cons (f : File) (fs : List File) (r : FileRow) :
    applyUpd (f :: fs) r = applyUpd fs (updRow f r) := rfl

theorem applyUpd_root (files : List File) (r : FileRow) :
    (applyUpd files r).root = r.root := by
  induction files generalizing r with
  | nil => rfl
  | cons f fs ih => rw [applyUpd_cons, ih, updRow_root]

theorem applyUpd_filename (files : List File) (r : FileRow) :
    (applyUpd files r).filename = r.filename := by
  induction files generalizing r with
  | nil => rfl
  | cons f fs ih => rw [applyUpd_cons, ih, updRow_filename]

theorem applyUpd_first_seen (files : List File) (r : FileRow) :
    (applyUpd files r).first_seen = r.first_seen := by
  induction files generalizing r with
  | nil => rfl
  | cons f fs ih => rw [applyUpd_cons, ih, updRow_first_seen]

/-- The batch update maps each row through `applyUpd`. -/
theorem update_files_eq (files : List File) (tbl : List FileRow) :
    update_files files tbl = tbl.map (applyUpd files) := by
  induction files generalizing tbl with
  | nil =>
    exact ((List.map_congr_left fun r _ => rfl).trans (List.map_id tbl)).symm
  | cons f fs ih =>
    show update_files fs (tbl.map (updRow f)) = _
    rw [ih, List.map_map]
    rfl

/-- A row no snapshot file matches is untouched by the updates. -/
theorem applyUpd_of_no_match (files : List File) (r : FileRow)
    (h : ∀ f ∈ files, ¬(r.root = f.root ∧ r.filename = f.filename)) :
    applyUpd files r = r := by
  induction files with
  | nil => rfl
  | cons f fs ih =>
    rw [applyUpd_cons]
    have hf : updRow f r = r := by
      unfold updRow
      rw [if_neg (h f (List.mem_cons_self f fs))]
    rw [hf]
    exact ih fun g hg => h g (List.mem_cons_of_mem f hg)

/-- With key-distinct snapshot files, a matched row ends exactly as the
UPDATE of its unique match leaves it. -/
theorem applyUpd_of_match (files : List File) (r : FileRow) (f : File)
    (hnd : (files.map fileKey).Nodup) (hf : f ∈ files)
    (hroot : r.root = f.root) (hname : r.filename = f.filename) :
    applyUpd files r =
      { r with last_seen := f.last_seen, removed := false,
               age_seconds := f.last_seen - r.first_seen } := by
  induction files generalizing r with
  | nil => exact absurd hf (List.not_mem_nil f)
  | cons g gs ih =>
    rw [List.map_cons, List.nodup_cons] at hnd
    rw [applyUpd_cons]
    rcases List.mem_cons.mp hf with hfg | hfgs
    · subst hfg
      have hg : updRow f r =
          { r with last_seen := f.last_seen, removed := false,
                   age_seconds := f.last_seen - r.first_seen } := by
        unfold updRow
        rw [if_pos ⟨hroot, hname⟩]
      rw [hg]
      apply applyUpd_of_no_match
      intro g' hg' hcon
      apply hnd.1
      rw [List.mem_map]
      refine ⟨g', hg', ?_⟩
      unfold fileKey
      simp only [Prod.mk.injEq]
      exact ⟨hcon.1.symm.trans hroot, hcon.2.symm.trans hname⟩
    · have hne : ¬(r.root = g.root ∧ r.filename = g.filename) := by
        intro hcon
        apply hnd.1
        rw [List.mem_map]
        refine ⟨f, hfgs, ?_⟩
        unfold fileKey
        simp only [Prod.mk.injEq]
        exact ⟨hroot.symm.trans hcon.1, hname.symm.trans hcon.2⟩
      have hg : updRow g r = r := by
        unfold updRow
        rw [if_neg hne]
      rw [hg]
      exact ih r hnd.2 hfgs hroot hname

/-- The batch insert only appends: the prior rows survive in place, and
every appended row is the fresh row of some snapshot file. -/
theorem insert_files_append (files : List File) (tbl : List FileRow) :
    ∃ ext, insert_files files tbl = tbl ++ ext ∧
      ∀ r ∈ ext, ∃ f ∈ files, r = freshRow f := by
  induction files generalizing tbl with
  | nil => exact ⟨[], by simp [insert_files]⟩
  | cons f fs ih =>
    have step : ∃ e, insertRow f tbl = tbl ++ e ∧
        ∀ r ∈ e, r = freshRow f := by
      unfold insertRow
      by_cases h : hasKey tbl f.root f.filename
      · exact ⟨[], by simp [h]⟩
      · refine ⟨[freshRow f], by simp [h], ?_⟩
        intro r hr
        simpa using hr
    obtain ⟨e, he, hee⟩ := step
    obtain ⟨ext, hext, hexte⟩ := ih (tbl ++ e)
    refine ⟨e ++ ext, ?_, ?_⟩
    · show insert_files fs (insertRow f tbl) = tbl ++ (e ++ ext)
      rw [he, hext, List.append_assoc]
    · intro r hr
      rcases List.mem_append.mp hr with hre | hrx
      · exact ⟨f, List.mem_cons_self f fs, hee r hre⟩
      · obtain ⟨g, hg, hrg⟩ := hexte r hrx
        exact ⟨g, List.mem_cons_of_mem f hg, hrg⟩

theorem hasKey_append_left (tbl ext : List FileRow) (root filename : String)
    (h : hasKey tbl root filename = true) :
    hasKey (tbl ++ ext) root filename = true := by
  unfold hasKey at h ⊢
  rw [List.any_append, h, Bool.true_or]

/-- After the batch insert every snapshot file's key is present. -/
theorem hasKey_insert_files (files : List File) (tbl : List FileRow) :
    ∀ f ∈ files, hasKey (insert_files files tbl) f.root f.filename = true := by
  induction files generalizing tbl with
  | nil => intro f hf; exact absurd hf (List.not_mem_nil f)
  | cons g gs ih =>
    intro f hf
    rcases List.mem_cons.mp hf with hfg | hfgs
    · subst hfg
      have hkey : hasKey (insertRow f tbl) f.root f.filename = true := by
        unfold insertRow
        by_cases h : hasKey tbl f.root f.filename
        · rw [if_pos h]; exact h
        · rw [if_neg h]
          unfold hasKey
          rw [List.any_append]
          have : hasKey [freshRow f] f.root f.filename = true := by
            unfold hasKey freshRow
            simp
          unfold hasKey at this
          rw [this, Bool.or_true]
      show hasKey (insert_files gs (insertRow f tbl)) f.root f.filename = true
      obtain ⟨ext, hext, -⟩ := insert_files_append gs (insertRow f tbl)
      rw [hext]
      exact hasKey_append_left _ ext _ _ hkey
    · exact ih (insertRow g tbl) f hfgs

/-- If every snapshot file's key is already present, the batch insert is
the identity. -/
theorem insert_files_of_all_present (files : List File) (tbl : List FileRow)
    (h : ∀ f ∈ files, hasKey tbl f.root f.filename = true) :
    insert_files files tbl = tbl := by
  induction files with
  | nil => rfl
  | cons f fs ih =>
    have hf : insertRow f tbl = tbl := by
      unfold insertRow
      rw [if_pos (h f (List.mem_cons_self f fs))]
    show insert_files fs (insertRow f tbl) = tbl
    rw [hf]
    exact ih fun g hg => h g (List.mem_cons_of_mem f hg)

/-- Membership form of `hasKey`. -/
theorem hasKey_iff (tbl : List FileRow) (root filename : String) :
    hasKey tbl root filename = true ↔
      ∃ r ∈ tbl, r.root = root ∧ r.filename = filename := by
  unfold hasKey
  simp [List.any_eq_true]

/-- Master characterization of a row after `save_files` with a
key-distinct snapshot: a row matched by a snapshot file carries that
file's `last_seen`, a cleared `removed` flag and a recomputed age; an
unmatched row is flagged `removed`. -/
theorem save_files_row_char (S : List File) (tbl : List FileRow)
    (hnd : (S.map fileKey).Nodup) (r : FileRow) (hr : r ∈ save_files S tbl) :
    (∀ f ∈ S, r.root = f.root → r.filename = f.filename →
        r.removed = false ∧ r.last_seen = f.last_seen ∧
          r.age_seconds = f.last_seen - r.first_seen)
    ∧ ((∀ f ∈ S, ¬(r.root = f.root ∧ r.filename = f.filename)) →
        r.removed = true) := by
  unfold save_files at hr
  obtain ⟨ext, hext, hexte⟩ :=
    insert_files_append S (update_files S (mark_all_removed tbl))
  rw [hext, List.mem_append] at hr
  rcases hr with hru | hrx
  · rw [update_files_eq, mark_all_removed_eq, List.map_map, List.mem_map] at hru
    obtain ⟨m, -, hm⟩ := hru
    set m' : FileRow := { m with removed := true } with hm'
    have hm'' : applyUpd S m' = r := hm
    constructor
    · intro f hf hroot hname
      have hmr : m'.root = f.root := by
        rw [← applyUpd_root S m', hm'', hroot]
      have hmn : m'.filename = f.filename := by
        rw [← applyUpd_filename S m', hm'', hname]
      have := applyUpd_of_match S m' f hnd hf hmr hmn
      rw [hm''] at this
      subst this
      exact ⟨rfl, rfl, rfl⟩
    · intro hno
      have hno' : ∀ f ∈ S, ¬(m'.root = f.root ∧ m'.filename = f.filename) := by
        intro f hf hcon
        apply hno f hf
        constructor
        · rw [← applyUpd_root S m', hm'']  at hcon
          exact hcon.1
        · rw [← applyUpd_filename S m', hm''] at hcon
          exact hcon.2
      have := applyUpd_of_no_match S m' hno'
      rw [hm''] at this
      rw [this]
  · obtain ⟨f₀, hf₀, hrf₀⟩ := hexte r hrx
    subst hrf₀
    constructor
    · intro f hf hroot hname
      have hkey : fileKey f = fileKey f₀ := by
        unfold fileKey
        unfold freshRow at hroot hname
        simp only at hroot hname
        rw [Prod.mk.injEq]
        exact ⟨hroot.symm, hname.symm⟩
      have hff₀ : f = f₀ := List.inj_on_of_nodup_map hnd hf hf₀ hkey
      subst hff₀
      exact ⟨rfl, rfl, by simp [freshRow]⟩
    · intro hno
      exact absurd ⟨rfl, rfl⟩ (hno f₀ hf₀)

/-- Sample snapshot used to instantiate the reconciliation theorems. -/
def sampleSnap : List File := [{ root := "/a", filename := "f", last_seen := 5 }]

/-- Sample prior table state used to instantiate the reconciliation
theorems. -/
def sampleTbl : List FileRow := [⟨"/b", "g", 1, 1, 0, false⟩]

/-- C1: reconciliation postcondition of `save_files`. For a snapshot with
distinct `(root, filename)` keys: every snapshot file ends with a
non-removed row carrying its observation time as `last_seen`; every row
whose key is absent from the snapshot ends `removed = true`; every prior
row's key survives and the row count never shrinks; `save_files []`
marks every row removed while leaving the row count unchanged. -/
theorem save_files_reconciliation (S : List File) (tbl : List FileRow)
    (hnd : (S.map fileKey).Nodup) :
    (∀ f ∈ S, ∃ r ∈ save_files S tbl,
        r.root = f.root ∧ r.filename = f.filename ∧
          r.removed = false ∧ r.last_seen = f.last_seen)
    ∧ (∀ r ∈ save_files S tbl,
        (∀ f ∈ S, ¬(r.root = f.root ∧ r.filename = f.filename)) →
          r.removed = true)
    ∧ (∀ m ∈ tbl, ∃ r ∈ save_files S tbl,
        r.root = m.root ∧ r.filename = m.filename)
    ∧ tbl.length ≤ (save_files S tbl).length
    ∧ save_files [] tbl = tbl.map (fun r => { r with removed := true })
    ∧ (save_files [] tbl).length = tbl.length := by
  obtain ⟨ext, hext, hexte⟩ :=
    insert_files_append S (update_files S (mark_all_removed tbl))
  have hsave : save_files S tbl =
      update_files S (mark_all_removed tbl) ++ ext := hext
  have hempty : save_files [] tbl =
      tbl.map (fun r => { r with removed := true }) := by
    show mark_all_removed tbl = _
    exact mark_all_removed_eq tbl
  refine ⟨?_, ?_, ?_, ?_, hempty, ?_⟩
  · intro f hf
    have hk : hasKey (save_files S tbl) f.root f.filename = true :=
      hasKey_insert_files S (update_files S (mark_all_removed tbl)) f hf
    obtain ⟨r, hrmem, hroot, hname⟩ := (hasKey_iff _ _ _).mp hk
    have hchar := save_files_row_char S tbl hnd r hrmem
    obtain ⟨hrem, hls, -⟩ := hchar.1 f hf hroot hname
    exact ⟨r, hrmem, hroot, hname, hrem, hls⟩
  · intro r hr hno
    exact (save_files_row_char S tbl hnd r hr).2 hno
  · intro m hm
    refine ⟨applyUpd S { m with removed := true }, ?_, ?_, ?_⟩
    · rw [hsave, List.mem_append]
      left
      rw [update_files_eq, mark_all_removed_eq, List.map_map]
      exact List.mem_map.mpr ⟨m, hm, rfl⟩
    · rw [applyUpd_root]
    · rw [applyUpd_filename]
  · rw [hsave, List.length_append, update_files_eq, mark_all_removed_eq,
      List.length_map, List.length_map]
    exact Nat.le_add_right _ _
  · rw [hempty, List.length_map]

/-- Witness for C1 at a concrete snapshot and prior state. -/
theorem save_files_reconciliation_witness :
    (∀ f ∈ sampleSnap, ∃ r ∈ save_files sampleSnap sampleTbl,
        r.root = f.root ∧ r.filename = f.filename ∧
          r.removed = false ∧ r.last_seen = f.last_seen)
    ∧ (∀ r ∈ save_files sampleSnap sampleTbl,
        (∀ f ∈ sampleSnap, ¬(r.root = f.root ∧ r.filename = f.filename)) →
          r.removed = true)
    ∧ (∀ m ∈ sampleTbl, ∃ r ∈ save_files sampleSnap sampleTbl,
        r.root = m.root ∧ r.filename = m.filename)
    ∧ sampleTbl.length ≤ (save_files sampleSnap sampleTbl).length
    ∧ save_files [] sampleTbl =
        sampleTbl.map (fun r => { r with removed := true })
    ∧ (save_files [] sampleTbl).length = sampleTbl.length :=
  save_files_reconciliation sampleSnap sampleTbl (by decide)

theorem map_eq_self_of_mem {α : Type} (l : List α) (f : α → α)
    (h : ∀ a ∈ l, f a = a) : l.map f = l :=
  (List.map_congr_left h).trans (List.map_id l)

/-- A second pass of the updates over an already reconciled table leaves
every row unchanged. -/
theorem applyUpd_mar_of_reconciled (S : List File) (tbl : List FileRow)
    (hnd : (S.map fileKey).Nodup) (r : FileRow) (hr : r ∈ save_files S tbl) :
    applyUpd S { r with removed := true } = r := by
  have hchar := save_files_row_char S tbl hnd r hr
  by_cases hmatch : ∃ f ∈ S, r.root = f.root ∧ r.filename = f.filename
  · obtain ⟨f, hf, hroot, hname⟩ := hmatch
    obtain ⟨hrem, hls, hage⟩ := hchar.1 f hf hroot hname
    have := applyUpd_of_match S { r with removed := true } f hnd hf hroot hname
    rw [this]
    cases r with
    | mk root filename fs ls age rm =>
      simp only at hrem hls hage ⊢
      rw [hrem, hls, hage]
  · push_neg at hmatch
    have hno : ∀ f ∈ S,
        ¬(FileRow.root { r with removed := true } = f.root ∧
          FileRow.filename { r with removed := true } = f.filename) := by
      intro f hf hcon
      exact (hmatch f hf hcon.1) hcon.2
    rw [applyUpd_of_no_match S _ hno]
    have hrem : r.removed = true := by
      apply hchar.2
      intro f hf hcon
      exact (hmatch f hf hcon.1) hcon.2
    cases r with
    | mk root filename fs ls age rm =>
      simp only at hrem
      rw [hrem]

/-- C6: `save_files` is idempotent for a key-distinct snapshot: a second
identical call reproduces the table exactly (same rows, hence same row
count and `first_seen` values, no duplicate inserts), and every snapshot
file's row has `removed = false`. -/
theorem save_files_idempotent (S : List File) (tbl : List FileRow)
    (hnd : (S.map fileKey).Nodup) :
    save_files S (save_files S tbl) = save_files S tbl
    ∧ (save_files S (save_files S tbl)).length = (save_files S tbl).length
    ∧ (save_files S (save_files S tbl)).map (fun r => r.first_seen) =
        (save_files S tbl).map (fun r => r.first_seen)
    ∧ ∀ f ∈ S, ∀ r ∈ save_files S tbl,
        r.root = f.root → r.filename = f.filename → r.removed = false := by
  have hupd : update_files S (mark_all_removed (save_files S tbl)) =
      save_files S tbl := by
    rw [update_files_eq, mark_all_removed_eq, List.map_map]
    exact map_eq_self_of_mem _ _ fun r hr =>
      applyUpd_mar_of_reconciled S tbl hnd r hr
  have hpresent : ∀ f ∈ S,
      hasKey (save_files S tbl) f.root f.filename = true := fun f hf =>
    hasKey_insert_files S (update_files S (mark_all_removed tbl)) f hf
  have hmain : save_files S (save_files S tbl) = save_files S tbl := by
    show insert_files S (update_files S (mark_all_removed (save_files S tbl))) =
      save_files S tbl
    rw [hupd]
    exact insert_files_of_all_present S _ hpresent
  refine ⟨hmain, by rw [hmain], by rw [hmain], ?_⟩
  intro f hf r hr hroot hname
  exact ((save_files_row_char S tbl hnd r hr).1 f hf hroot hname).1

/-- Witness for C6 at a concrete snapshot and prior state. -/
theorem save_files_idempotent_witness :
    save_files sampleSnap (save_files sampleSnap sampleTbl) =
      save_files sampleSnap sampleTbl
    ∧ (save_files sampleSnap (save_files sampleSnap sampleTbl)).length =
        (save_files sampleSnap sampleTbl).length
    ∧ (save_files sampleSnap (save_files sampleSnap sampleTbl)).map
          (fun r => r.first_seen) =
        (save_files sampleSnap sampleTbl).map (fun r => r.first_seen)
    ∧ ∀ f ∈ sampleSnap, ∀ r ∈ save_files sampleSnap sampleTbl,
        r.root = f.root → r.filename = f.filename → r.removed = false :=
  save_files_idempotent sampleSnap sampleTbl (by decide)

/-! ## Age invariant -/

/-- Every row's `age_seconds` column equals `last_seen - first_seen`. -/
def AgeInv (tbl : List FileRow) : Prop :=
  ∀ r ∈ tbl, r.age_seconds = r.last_seen - r.first_seen

instance (tbl : List FileRow) : Decidable (AgeInv tbl) :=
  List.decidableBAll _ tbl

theorem updRow_age (f : File) (r : FileRow)
    (h : r.age_seconds = r.last_seen - r.first_seen) :
    (updRow f r).age_seconds = (updRow f r).last_seen - (updRow f r).first_seen := by
  unfold updRow
  split
  · rfl
  · exact h

theorem applyUpd_age (S : List File) (r : FileRow)
    (h : r.age_seconds = r.last_seen - r.first_seen) :
    (applyUpd S r).age_seconds =
      (applyUpd S r).last_seen - (applyUpd S r).first_seen := by
  induction S generalizing r with
  | nil => exact h
  | cons f fs ih =>
    rw [applyUpd_cons]
    exact ih (updRow f r) (updRow_age f r h)

theorem AgeInv_save_files (S : List File) (tbl : List FileRow)
    (h : AgeInv tbl) : AgeInv (save_files S tbl) := by
  intro r hr
  unfold save_files at hr
  obtain ⟨ext, hext, hexte⟩ :=
    insert_files_append S (update_files S (mark_all_removed tbl))
  rw [hext, List.mem_append] at hr
  rcases hr with hru | hrx
  · rw [update_files_eq, mark_all_removed_eq, List.map_map, List.mem_map] at hru
    obtain ⟨m, hm, hmr⟩ := hru
    have hm' : FileRow.age_seconds { m with removed := true } =
        FileRow.last_seen { m with removed := true } -
          FileRow.first_seen { m with removed := true } := h m hm
    rw [← hmr]
    exact applyUpd_age S _ hm'
  · obtain ⟨f, -, hrf⟩ := hexte r hrx
    subst hrf
    simp [freshRow]

/-- C7: age invariant. Every table reachable from the empty store by a
sequence of `save_files` calls satisfies `age_seconds = last_seen -
first_seen` on every row; `save_files` preserves the invariant from any
state; a newly inserted row starts with `first_seen = last_seen` and age
0; an update recomputes the age from the new `last_seen` and the
preserved `first_seen`. -/
theorem age_invariant :
    (∀ snaps : List (List File),
        AgeInv (snaps.foldl (fun t S => save_files S t) []))
    ∧ (∀ (S : List File) (tbl : List FileRow),
        AgeInv tbl → AgeInv (save_files S tbl))
    ∧ (∀ f : File, (freshRow f).first_seen = (freshRow f).last_seen ∧
        (freshRow f).age_seconds = 0)
    ∧ (∀ (f : File) (r : FileRow), r.root = f.root → r.filename = f.filename →
        (updRow f r).age_seconds = f.last_seen - r.first_seen ∧
          (updRow f r).last_seen = f.last_seen ∧
          (updRow f r).first_seen = r.first_seen) := by
  refine ⟨?_, AgeInv_save_files, ?_, ?_⟩
  · have general : ∀ (snaps : List (List File)) (t : List FileRow),
        AgeInv t → AgeInv (snaps.foldl (fun t S => save_files S t) t) := by
      intro snaps
      induction snaps with
      | nil => exact fun t h => h
      | cons S rest ih =>
        intro t h
        exact ih (save_files S t) (AgeInv_save_files S t h)
    intro snaps
    exact general snaps [] fun r hr => absurd hr (List.not_mem_nil r)
  · intro f
    exact ⟨rfl, rfl⟩
  · intro f r hroot hname
    unfold updRow
    rw [if_pos ⟨hroot, hname⟩]
    exact ⟨rfl, rfl, rfl⟩

/-- Sample snapshot file with a key matching `sampleRow`. -/
def sampleF : File := { root := "/a", filename := "f", last_seen := 9 }

/-- Sample existing row matched by `sampleF`. -/
def sampleRow : FileRow := ⟨"/a", "f", 2, 3, 1, false⟩

/-- Witness for C7 at a concrete state and a concrete update. -/
theorem age_invariant_witness :
    AgeInv (save_files sampleSnap sampleTbl)
    ∧ ((updRow sampleF sampleRow).age_seconds =
          sampleF.last_seen - sampleRow.first_seen ∧
        (updRow sampleF sampleRow).last_seen = sampleF.last_seen ∧
        (updRow sampleF sampleRow).first_seen = sampleRow.first_seen) :=
  ⟨age_invariant.2.1 sampleSnap sampleTbl (by decide),
   age_invariant.2.2.2 sampleF sampleRow (by decide) (by decide)⟩

/-! ## Retention: WatcherStore.clean_oldest_files -/

/-- `WatcherStore.clean_oldest_files`:
`DELETE FROM files WHERE age_seconds > ?` with
`? = oldest_file_row_age * 86400`. -/
def clean_oldest_files (oldest_file_row_age : Int)
    (tbl : List FileRow) : List FileRow :=
  tbl.filter fun r => !decide (r.age_seconds > oldest_file_row_age * 86400)

/-- Row aged 31 days (relative to a 30 day threshold). -/
def row31 : FileRow := ⟨"/r", "old", 0, 31 * 86400, 31 * 86400, true⟩

/-- Row aged 29 days (relative to a 30 day threshold). -/
def row29 : FileRow := ⟨"/r", "young", 0, 29 * 86400, 29 * 86400, false⟩

/-- C8: retention deletes exactly the rows whose `age_seconds` strictly
exceeds `days * 86400` and keeps all others; with a 30-day threshold a
31-day-old row is deleted and a 29-day-old row remains. -/
theorem clean_oldest_files_spec :
    (∀ (days : Int) (tbl : List FileRow) (r : FileRow),
        r ∈ clean_oldest_files days tbl ↔
          r ∈ tbl ∧ r.age_seconds ≤ days * 86400)
    ∧ clean_oldest_files 30 [row31, row29] = [row29] := by
  constructor
  · intro days tbl r
    unfold clean_oldest_files
    rw [List.mem_filter]
    simp [Int.not_lt]
  · decide

/-! ## Run guard: WatcherStore.start_run / stop_run -/

/-- `WatcherStore.start_run`: read `(last_run, is_running)`; treat the
flag as false when `last_run < now - max_is_running_age`; raise
`RuntimeError` when the (possibly reset) flag is set; otherwise write
`is_running = 1, last_run = now`. -/
def start_run (now max_is_running_age : Int)
    (s : SystemRow) : Except String SystemRow :=
  let is_running :=
    if s.last_run < now - max_is_running_age then false else s.is_running
  if is_running then
    .error ("Already running (last run " ++ toString s.last_run ++ ")")
  else
    .ok { last_run := now, is_running := true }

/-- `WatcherStore.stop_run`: `UPDATE system SET is_running = 0`. -/
def stop_run (s : SystemRow) : SystemRow :=
  { s with is_running := false }

/-- Whether a store call raised. -/
def raisesError (e : Except String SystemRow) : Bool :=
  match e with
  | .error _ => true
  | .ok _ => false

/-- C5: `start_run` raises iff the stored flag is set and `last_run` is
within the staleness window (`now - max_is_running_seconds ≤ last_run`);
otherwise it succeeds and writes `is_running = true, last_run = now`.
Hence a second `start_run` without `stop_run` raises while still inside
the window and succeeds once the window has elapsed. -/
theorem start_run_guard (now max_age : Int) (s : SystemRow) :
    (raisesError (start_run now max_age s) = true ↔
        s.is_running = true ∧ now - max_age ≤ s.last_run)
    ∧ (¬(s.is_running = true ∧ now - max_age ≤ s.last_run) →
        start_run now max_age s = .ok ⟨now, true⟩)
    ∧ (∀ now₂ : Int, now₂ - max_age ≤ now →
        raisesError (start_run now₂ max_age ⟨now, true⟩) = true)
    ∧ (∀ now₂ : Int, now < now₂ - max_age →
        start_run now₂ max_age ⟨now, true⟩ = .ok ⟨now₂, true⟩) := by
  have hmain : ∀ (n : Int) (t : SystemRow),
      (raisesError (start_run n max_age t) = true ↔
        t.is_running = true ∧ n - max_age ≤ t.last_run)
      ∧ (¬(t.is_running = true ∧ n - max_age ≤ t.last_run) →
        start_run n max_age t = .ok ⟨n, true⟩) := by
    intro n t
    unfold start_run raisesError
    by_cases hstale : t.last_run < n - max_age
    · have hnot : ¬(n - max_age ≤ t.last_run) := Int.not_le.mpr hstale
      simp [hstale, hnot]
    · have hle : n - max_age ≤ t.last_run := Int.not_lt.mp hstale
      by_cases hrun : t.is_running = true
      · simp [hstale, hrun, hle]
      · simp only [Bool.not_eq_true] at hrun
        simp [hstale, hrun]
  refine ⟨(hmain now s).1, (hmain now s).2, ?_, ?_⟩
  · intro now₂ h
    apply ((hmain now₂ ⟨now, true⟩).1).mpr
    exact ⟨rfl, h⟩
  · intro now₂ h
    apply (hmain now₂ ⟨now, true⟩).2
    rintro ⟨-, hle⟩
    exact absurd h (Int.not_lt.mpr hle)

/-- Witness for C5: flag stale-reset, double-call conflict, and recovery
after the staleness window, at concrete timestamps. -/
theorem start_run_guard_witness :
    start_run 1000 300 ⟨600, true⟩ = .ok ⟨1000, true⟩
    ∧ raisesError (start_run 1100 300 ⟨1000, true⟩) = true
    ∧ start_run 2000 300 ⟨1000, true⟩ = .ok ⟨2000, true⟩ :=
  ⟨(start_run_guard 1000 300 ⟨600, true⟩).2.1 (by decide),
   (start_run_guard 1000 300 ⟨1000, true⟩).2.2.1 1100 (by decide),
   (start_run_guard 1000 300 ⟨1000, true⟩).2.2.2 2000 (by decide)⟩

/-! ## Aggregate queries -/

/-- Rows surviving the `WHERE removed = 0` clause. -/
def nonRemoved (tbl : List FileRow) : List FileRow :=
  tbl.filter fun r => !r.removed

/-- Distinct values in first-occurrence order (the GROUP BY / PARTITION
BY grouping keys). -/
def distinctRoots (roots : List String) : List String :=
  roots.foldl (fun acc r => if r ∈ acc then acc else acc ++ [r]) []

/-- `COUNT(root)` within one group of non-removed rows. -/
def countRoot (tbl : List FileRow) (root : String) : Nat :=
  ((nonRemoved tbl).filter fun r => decide (r.root = root)).length

/-- `WatcherStore.get_directories`:
`SELECT root, COUNT(root), 0 FROM files WHERE removed = 0 GROUP BY root`
applied positionally to `Directory(root, last_seen, file_count)`, so the
count lands in the `last_seen` field and `file_count` is the literal 0. -/
def get_directories (tbl : List FileRow) : List Directory :=
  (distinctRoots ((nonRemoved tbl).map fun r => r.root)).map fun root =>
    { root := root, last_seen := (countRoot tbl root : Int), file_count := 0 }

/-- Snapshot with exactly the files f1 and f2 under root "/r". -/
def snapTwo : List File :=
  [{ root := "/r", filename := "f1", last_seen := 100 },
   { root := "/r", filename := "f2", last_seen := 102 }]

/-- C3 (code bug): after reconciling the two-file snapshot under "/r",
`get_directories` returns a single aggregate whose `file_count` field is
0 — the row count 2 is misassigned to `last_seen` because the SELECT
column order (root, count, 0) does not match the `Directory` field order
(root, last_seen, file_count). -/
theorem get_directories_misassigns_count :
    get_directories (save_files snapTwo []) =
      [{ root := "/r", last_seen := 2, file_count := 0 }]
    ∧ (get_directories (save_files snapTwo [])).map (fun d => d.file_count) =
        [0]
    ∧ ((2 : Int) ≠ 0) := by
  refine ⟨by decide, by decide, by decide⟩

/-- Comparison used by `ROW_NUMBER() OVER (... ORDER BY age_seconds
DESC)`: keep the row seen so far unless a strictly older row appears. -/
def pickOlder (a b : FileRow) : FileRow :=
  if b.age_seconds > a.age_seconds then b else a

/-- The `rn = 1` row of one partition: first row of maximal age in row
order. -/
def oldestRow : List FileRow → Option FileRow
  | [] => none
  | r :: rest => some (rest.foldl pickOlder r)

/-- Descending-age order of the final `ORDER BY age_seconds DESC`. -/
def ageDesc (a b : FileRow) : Prop :=
  b.age_seconds ≤ a.age_seconds

instance : DecidableRel ageDesc := fun a b =>
  inferInstanceAs (Decidable (b.age_seconds ≤ a.age_seconds))

/-- `WatcherStore.get_oldest_files`: per root the non-removed row of
maximal `age_seconds`, ordered by age descending, applied positionally —
`SELECT root, filename, first_seen, last_seen, age_seconds` into
`File(root, filename, last_seen, first_seen, age_seconds)`, so the
`first_seen` column lands in the `last_seen` field and vice versa. -/
def get_oldest_files (tbl : List FileRow) : List File :=
  let nr := nonRemoved tbl
  let picks := (distinctRoots (nr.map fun r => r.root)).filterMap
    fun root => oldestRow (nr.filter fun r => decide (r.root = root))
  (picks.insertionSort ageDesc).map fun r =>
    { root := r.root, filename := r.filename, last_seen := r.first_seen,
      first_seen := r.last_seen, age_seconds := r.age_seconds }

theorem foldl_pickOlder_mem (rest : List FileRow) (a : FileRow) :
    rest.foldl pickOlder a = a ∨ rest.foldl pickOlder a ∈ rest := by
  induction rest generalizing a with
  | nil => left; rfl
  | cons b bs ih =>
    have step : List.foldl pickOlder a (b :: bs) =
        List.foldl pickOlder (pickOlder a b) bs := rfl
    rw [step]
    rcases ih (pickOlder a b) with h | h
    · rw [h]
      unfold pickOlder
      split
      · right; exact List.mem_cons_self b bs
      · left; rfl
    · right; exact List.mem_cons_of_mem b h

theorem oldestRow_mem (rows : List FileRow) (r : FileRow)
    (h : oldestRow rows = some r) : r ∈ rows := by
  cases rows with
  | nil => exact absurd h (by simp [oldestRow])
  | cons r₀ rest =>
    have hr : rest.foldl pickOlder r₀ = r := by
      have := h
      unfold oldestRow at this
      exact Option.some.inj this
    rcases foldl_pickOlder_mem rest r₀ with h₀ | h₀
    · rw [h₀] at hr
      rw [← hr]
      exact List.mem_cons_self r₀ rest
    · rw [hr] at h₀
      exact List.mem_cons_of_mem r₀ h₀

/-- C10: every `File` returned by `get_oldest_files` comes from a
non-removed stored row with its `first_seen` field holding the row's
`last_seen` column and its `last_seen` field holding the row's
`first_seen` column, while root, filename and age are mapped
correctly. -/
theorem get_oldest_files_swaps_seen (tbl : List FileRow) (f : File)
    (hf : f ∈ get_oldest_files tbl) :
    ∃ r, r ∈ tbl ∧ r.removed = false ∧ f.root = r.root ∧
      f.filename = r.filename ∧ f.first_seen = r.last_seen ∧
      f.last_seen = r.first_seen ∧ f.age_seconds = r.age_seconds := by
  unfold get_oldest_files at hf
  rw [List.mem_map] at hf
  obtain ⟨r, hr, hrf⟩ := hf
  have hr' : r ∈ List.filterMap
      (fun root =>
        oldestRow ((nonRemoved tbl).filter fun q => decide (q.root = root)))
      (distinctRoots ((nonRemoved tbl).map fun q => q.root)) :=
    ((List.perm_insertionSort ageDesc _).mem_iff).mp hr
  rw [List.mem_filterMap] at hr'
  obtain ⟨root, -, hpick⟩ := hr'
  have hmem : r ∈ (nonRemoved tbl).filter fun r => decide (r.root = root) :=
    oldestRow_mem _ r hpick
  rw [List.mem_filter] at hmem
  have hnr : r ∈ nonRemoved tbl := hmem.1
  unfold nonRemoved at hnr
  rw [List.mem_filter] at hnr
  refine ⟨r, hnr.1, ?_, ?_⟩
  · have := hnr.2
    simp only [Bool.not_eq_true'] at this
    exact this
  · rw [← hrf]
    exact ⟨rfl, rfl, rfl, rfl, rfl⟩

/-- Table used to instantiate the `get_oldest_files` theorem: one row
with distinct `first_seen` and `last_seen`. -/
def tblOld : List FileRow := [⟨"/r", "f1", 3, 10, 7, false⟩]

/-- The file `get_oldest_files tblOld` returns: `first_seen` and
`last_seen` carry the opposite columns of the stored row. -/
def oldFile : File :=
  { root := "/r", filename := "f1", last_seen := 3, first_seen := 10,
    age_seconds := 7 }

/-- Witness for C10: on `tblOld` the returned file carries
`first_seen = 10` (the row's `last_seen`) and `last_seen = 3` (the row's
`first_seen`). -/
theorem get_oldest_files_swaps_seen_witness :
    ∃ r, r ∈ tblOld ∧ r.removed = false ∧ oldFile.root = r.root ∧
      oldFile.filename = r.filename ∧ oldFile.first_seen = r.last_seen ∧
      oldFile.last_seen = r.first_seen ∧
      oldFile.age_seconds = r.age_seconds :=
  get_oldest_files_swaps_seen tblOld oldFile (by decide)

/-! ## WatcherEmitter -/

/-- The dataclass `watcheremitter.Metric` (`guage_values` as spelled in
the source). -/
structure Metric where
  metric_name : String
  dimensions : List String
  guage_values : List String
  timestamp : Int := 0
deriving DecidableEq, Repr

/-- `WatcherEmitter.add_line`: append one metric to the queue; a zero
timestamp is replaced by the current time (`timestamp or now`), and the
stored value is the seconds timestamp converted to milliseconds
(`* 1000`). -/
def add_line (queue : List Metric) (metric_name : String)
    (dimensions guage_values : List String) (timestamp now : Int) :
    List Metric :=
  queue ++
    [{ metric_name := metric_name, dimensions := dimensions,
       guage_values := guage_values,
       timestamp := (if timestamp ≠ 0 then timestamp else now) * 1000 }]

/-- The line-protocol rendering inside `WatcherEmitter._get_lines`:
name, comma, comma-joined dimensions, space, comma-joined gauge values,
space, timestamp. -/
def renderLine (m : Metric) : String :=
  m.metric_name ++ "," ++ String.intercalate "," m.dimensions ++ " " ++
    String.intercalate "," m.guage_values ++ " " ++ toString m.timestamp

/-- `WatcherEmitter._get_lines`: pop and render up to `max_lines`
metrics from the front of the queue, returning the rendered lines and
the remaining queue. -/
def get_lines (max_lines : Nat) (queue : List Metric) :
    List String × List Metric :=
  ((queue.take max_lines).map renderLine, queue.drop max_lines)

/-- The emission targets defined on `WatcherEmitter`. -/
inductive Sink
  | stdout
  | file
  | telegraf
  | oneagent
deriving DecidableEq, Repr

/-- The per-sink enable flags of the configuration. -/
structure EmitFlags where
  emit_stdout : Bool
  emit_file : Bool
  emit_telegraf : Bool
  emit_oneagent : Bool
deriving DecidableEq, Repr

/-- The delivery events one batch generates inside `WatcherEmitter.emit`:
the body calls `to_stdout`, `to_file` and `to_telegraf` in that order
(`to_oneagent` is never invoked there); each sink delivers only when its
flag is enabled and the batch is non-empty. -/
def sinkEvents (cfg : EmitFlags) (lines : List String) :
    List (Sink × List String) :=
  (if cfg.emit_stdout && !lines.isEmpty then [(Sink.stdout, lines)] else []) ++
  (if cfg.emit_file && !lines.isEmpty then [(Sink.file, lines)] else []) ++
  (if cfg.emit_telegraf && !lines.isEmpty then [(Sink.telegraf, lines)] else [])

/-- The `while self._metric_lines:` loop of `WatcherEmitter.emit`,
modelled with an explicit iteration bound. Every iteration takes one
batch of `batch_size` lines and hands it to the sinks before the next
batch is taken. -/
def emitLoop (cfg : EmitFlags) (batch_size : Nat) :
    Nat → List Metric → List (Sink × List String)
  | _, [] => []
  | 0, _ :: _ => []
  | fuel + 1, m :: rest =>
      sinkEvents cfg (get_lines batch_size (m :: rest)).1 ++
        emitLoop cfg batch_size fuel (get_lines batch_size (m :: rest)).2

/-- `WatcherEmitter.emit`: drain the queue in batches. For any positive
`batch_size` the loop runs at most `queue.length` iterations, so that
bound makes the model total while matching the source exactly. -/
def emit (cfg : EmitFlags) (batch_size : Nat) (queue : List Metric) :
    List (Sink × List String) :=
  emitLoop cfg batch_size queue.length queue

/-- C2 counterexample: enqueuing with timestamp 12 and draining yields
"m,tag=a val=1 12000" (seconds converted to milliseconds), not
"m,tag=a val=1 12" as the claim states. -/
theorem add_line_timestamp_counterexample :
    (get_lines 500 (add_line [] "m" ["tag=a"] ["val=1"] 12 999)).1 =
      ["m,tag=a val=1 12000"]
    ∧ (get_lines 500 (add_line [] "m" ["tag=a"] ["val=1"] 12 999)).1 ≠
        ["m,tag=a val=1 12"] :=
  ⟨by decide, by decide⟩

/-- C2 amended: draining the queue after
`add_line("m", ["tag=a"], ["val=1"], 12)` produces exactly
"m,tag=a val=1 12000" — comma-joined dimensions directly after the
metric name, one space, comma-joined gauge values, one space, then the
timestamp scaled from seconds to milliseconds; and in general each
enqueued metric renders in exactly that byte layout. -/
theorem add_line_render_spec :
    (get_lines 500 (add_line [] "m" ["tag=a"] ["val=1"] 12 999)).1 =
      ["m,tag=a val=1 12000"]
    ∧ ∀ (q : List Metric) (name : String) (dims gauges : List String)
        (ts now : Int),
        (get_lines (q.length + 1) (add_line q name dims gauges ts now)).1 =
          q.map renderLine ++
            [name ++ "," ++ String.intercalate "," dims ++ " " ++
              String.intercalate "," gauges ++ " " ++
              toString ((if ts ≠ 0 then ts else now) * 1000)] := by
  constructor
  · decide
  · intro q name dims gauges ts now
    unfold add_line get_lines
    have hlen : q.length + 1 = (q ++
        [{ metric_name := name, dimensions := dims, guage_values := gauges,
           timestamp := (if ts ≠ 0 then ts else now) * 1000 : Metric }]).length := by
      simp
    rw [hlen, List.take_length, List.map_append]
    rfl

/-- Config with all four sinks enabled. -/
def allSinks : EmitFlags := ⟨true, true, true, true⟩

/-- A queue of two metrics (as in the repo's own
`test_emit_calls_all_methods`). -/
def qTwo : List Metric :=
  [⟨"metric.name", ["key1=test"], ["value=1"], 12⟩,
   ⟨"metric.name", ["key1=test"], ["value=2"], 12⟩]

theorem sinkEvents_no_oneagent (cfg : EmitFlags) (lines : List String) :
    (sinkEvents cfg lines).countP
      (fun e => decide (e.1 = Sink.oneagent)) = 0 := by
  unfold sinkEvents
  rw [List.countP_append, List.countP_append]
  have h : ∀ (b : Bool) (s : Sink), s ≠ Sink.oneagent →
      (if b = true then [(s, lines)] else []).countP
        (fun e => decide (e.1 = Sink.oneagent)) = 0 := by
    intro b s hs
    cases b
    · simp
    · simp [List.countP_cons, hs]
  rw [h _ _ (by decide), h _ _ (by decide), h _ _ (by decide)]

/-- C4 (code bug): with every sink enabled and batch size 1, `emit` on a
two-metric queue hands each batch to stdout, file and telegraf in turn —
but never to the oneagent sink, for any configuration, batch size or
queue (the repo's own test expects two oneagent calls here). -/
theorem emit_never_calls_oneagent :
    emit allSinks 1 qTwo =
      [(Sink.stdout, ["metric.name,key1=test value=1 12"]),
       (Sink.file, ["metric.name,key1=test value=1 12"]),
       (Sink.telegraf, ["metric.name,key1=test value=1 12"]),
       (Sink.stdout, ["metric.name,key1=test value=2 12"]),
       (Sink.file, ["metric.name,key1=test value=2 12"]),
       (Sink.telegraf, ["metric.name,key1=test value=2 12"])]
    ∧ (emit allSinks 1 qTwo).countP
        (fun e => decide (e.1 = Sink.oneagent)) = 0
    ∧ ∀ (cfg : EmitFlags) (batch_size fuel : Nat) (q : List Metric),
        (emitLoop cfg batch_size fuel q).countP
          (fun e => decide (e.1 = Sink.oneagent)) = 0 := by
  refine ⟨by decide, by decide, ?_⟩
  intro cfg batch_size fuel
  induction fuel with
  | zero =>
    intro q
    cases q with
    | nil => rfl
    | cons m rest => rfl
  | succ n ih =>
    intro q
    cases q with
    | nil => rfl
    | cons m rest =>
      show (sinkEvents cfg _ ++ emitLoop cfg batch_size n _).countP _ = 0
      rw [List.countP_append, sinkEvents_no_oneagent, ih]

/-! ## Watcher pipeline (C9) -/

/-- Python runtime errors relevant to the pipeline. -/
inductive PyError
  | typeError
  | attributeError
deriving DecidableEq, Repr

/-- The field names of the `watchermodel.File` dataclass (the keyword
names its constructor accepts). -/
def File.fieldNames : List String :=
  ["root", "filename", "last_seen", "first_seen", "age_seconds", "removed"]

/-- The keyword names `Watcher._build_file_models` passes to `File`. -/
def buildKeywords : List String :=
  ["root", "filename", "first_seen", "last_seen", "size_bytes"]

/-- `Watcher._build_file_models`: skip excluded filenames, skip files
whose stat raises FileNotFoundError, then construct
`File(root=…, filename=…, first_seen=…, last_seen=…, size_bytes=…)` —
a keyword call that raises TypeError when a keyword is not a dataclass
field. -/
def build_file_models (dirpath : String) (filenames : List String)
    (ignored statOk : String → Bool) (now firstseen : Int) :
    Except PyError (List File) :=
  match filenames with
  | [] => .ok []
  | fn :: rest =>
    if ignored fn then build_file_models dirpath rest ignored statOk now firstseen
    else if !statOk fn then
      build_file_models dirpath rest ignored statOk now firstseen
    else if buildKeywords.all (fun k => File.fieldNames.contains k) then
      match build_file_models dirpath rest ignored statOk now firstseen with
      | .error e => .error e
      | .ok files =>
        .ok ({ root := dirpath, filename := fn, last_seen := now,
               first_seen := firstseen } :: files)
    else .error .typeError

/-- Python attribute lookup on a `Directory` value: only the three
dataclass fields exist; any other name raises AttributeError. The value
is stringified as the f-string in `_add_directory_size_lines` does. -/
def Directory.getattr (d : Directory) (name : String) :
    Except PyError String :=
  if name = "root" then .ok d.root
  else if name = "last_seen" then .ok (toString d.last_seen)
  else if name = "file_count" then .ok (toString d.file_count)
  else .error .attributeError

/-- `Watcher._add_directory_size_lines`: for each directory aggregate or
empty-directory marker, build the gauge value from
`directory.size_bytes`. -/
def add_directory_size_lines (dirs : List Directory) :
    Except PyError (List String) :=
  match dirs with
  | [] => .ok []
  | d :: rest =>
    match d.getattr "size_bytes" with
    | .error e => .error e
    | .ok v =>
      match add_directory_size_lines rest with
      | .error e => .error e
      | .ok lines => .ok (("directory.size.bytes=" ++ v) :: lines)

/-- C9: the walk pipeline cannot complete when the scan observes
anything: any non-excluded, stat-able file makes `_build_file_models`
raise TypeError (the `size_bytes` keyword is not a `File` field), and
any non-empty directory list makes `_add_directory_size_lines` raise
AttributeError (`size_bytes` is not a `Directory` field). -/
theorem walk_pipeline_raises (dirpath : String) (filenames : List String)
    (ignored statOk : String → Bool) (now firstseen : Int)
    (dirs : List Directory) :
    ((∃ fn ∈ filenames, ignored fn = false ∧ statOk fn = true) →
      build_file_models dirpath filenames ignored statOk now firstseen =
        .error PyError.typeError)
    ∧ (dirs ≠ [] →
        add_directory_size_lines dirs = .error PyError.attributeError) := by
  constructor
  · intro ⟨fn, hmem, hign, hstat⟩
    induction filenames with
    | nil => exact absurd hmem (List.not_mem_nil fn)
    | cons g rest ih =>
      unfold build_file_models
      rcases List.mem_cons.mp hmem with hg | hrest
      · subst hg
        rw [hign, if_neg (by simp), hstat]
        simp only [Bool.not_true, Bool.false_eq_true, if_false]
        rw [if_neg (by decide)]
      · by_cases hg : ignored g = true
        · rw [hg, if_pos rfl]
          exact ih hrest
        · simp only [Bool.not_eq_true] at hg
          rw [hg, if_neg (by simp)]
          by_cases hs : statOk g = true
          · rw [hs]
            simp only [Bool.not_true, Bool.false_eq_true, if_false]
            rw [if_neg (by decide)]
          · simp only [Bool.not_eq_true] at hs
            rw [hs]
            simp only [Bool.not_false, if_true]
            exact ih hrest
  · intro h
    cases dirs with
    | nil => exact absurd rfl h
    | cons d rest => rfl

/-- Witness for C9: one visible file and one directory marker. -/
theorem walk_pipeline_raises_witness :
    build_file_models "/r" ["a.txt"] (fun _ => false) (fun _ => true) 50 50 =
      .error PyError.typeError
    ∧ add_directory_size_lines [⟨"/r", 0, 0⟩] =
        .error PyError.attributeError :=
  ⟨(walk_pipeline_raises "/r" ["a.txt"] (fun _ => false) (fun _ => true)
      50 50 []).1 ⟨"a.txt", by decide, rfl, rfl⟩,
   (walk_pipeline_raises "/r" [] (fun _ => false) (fun _ => true)
      50 50 [⟨"/r", 0, 0⟩]).2 (by decide)⟩

end WalkWatcher
